import Mathlib

/-!
Verification of the multi-endpoint result-merging engine of
`graphql-mesh-multi-instance` against its specification.

The embedding below translates `mergeResults.ts` (the file holding
`mergeResults`, `mergeArrayResults`, `mergeObjectResults`, `deepMerge` and
`validateResultCompatibility`) into Lean.  Decoded JSON payloads are modelled
by the inductive type `Value`; JS `undefined`/missing values surface as
`Option.none`, JS `null` as `Value.vNull`.  Object properties are kept in
insertion order, matching JS object semantics for the non-numeric keys this
engine manipulates; `Map` keys are compared by value, which agrees with JS
`SameValueZero` on the primitive dedupe-key values (strings, integers,
booleans, null) representable here.

A second, heap-based embedding (`hRun` and friends, further below) models the
reference/mutation semantics of `mergeObjectResults`/`deepMerge`, which the
pure embedding cannot express; it is used for the frame claim about input
payloads not being mutated.
-/

namespace GMesh

/-- Decoded JSON payload values: null, booleans, numbers, strings, arrays and
objects (association lists in insertion order). -/
inductive Value where
  | vNull
  | vBool (b : Bool)
  | vNum (n : Int)
  | vStr (s : String)
  | vArr (xs : List Value)
  | vObj (fs : List (String × Value))

mutual

/-- Decidable equality for `Value` (hand-rolled because `deriving` does not
support this nested inductive). -/
def decEqValue : (a b : Value) → Decidable (a = b)
  | .vNull, .vNull => isTrue rfl
  | .vNull, .vBool _ => isFalse (fun h => Value.noConfusion h)
  | .vNull, .vNum _ => isFalse (fun h => Value.noConfusion h)
  | .vNull, .vStr _ => isFalse (fun h => Value.noConfusion h)
  | .vNull, .vArr _ => isFalse (fun h => Value.noConfusion h)
  | .vNull, .vObj _ => isFalse (fun h => Value.noConfusion h)
  | .vBool _, .vNull => isFalse (fun h => Value.noConfusion h)
  | .vBool a, .vBool b =>
    match decEq a b with
    | isTrue h => isTrue (by rw [h])
    | isFalse h => isFalse (fun he => h (Value.vBool.inj he))
  | .vBool _, .vNum _ => isFalse (fun h => Value.noConfusion h)
  | .vBool _, .vStr _ => isFalse (fun h => Value.noConfusion h)
  | .vBool _, .vArr _ => isFalse (fun h => Value.noConfusion h)
  | .vBool _, .vObj _ => isFalse (fun h => Value.noConfusion h)
  | .vNum _, .vNull => isFalse (fun h => Value.noConfusion h)
  | .vNum _, .vBool _ => isFalse (fun h => Value.noConfusion h)
  | .vNum a, .vNum b =>
    match decEq a b with
    | isTrue h => isTrue (by rw [h])
    | isFalse h => isFalse (fun he => h (Value.vNum.inj he))
  | .vNum _, .vStr _ => isFalse (fun h => Value.noConfusion h)
  | .vNum _, .vArr _ => isFalse (fun h => Value.noConfusion h)
  | .vNum _, .vObj _ => isFalse (fun h => Value.noConfusion h)
  | .vStr _, .vNull => isFalse (fun h => Value.noConfusion h)
  | .vStr _, .vBool _ => isFalse (fun h => Value.noConfusion h)
  | .vStr _, .vNum _ => isFalse (fun h => Value.noConfusion h)
  | .vStr a, .vStr b =>
    match decEq a b with
    | isTrue h => isTrue (by rw [h])
    | isFalse h => isFalse (fun he => h (Value.vStr.inj he))
  | .vStr _, .vArr _ => isFalse (fun h => Value.noConfusion h)
  | .vStr _, .vObj _ => isFalse (fun h => Value.noConfusion h)
  | .vArr _, .vNull => isFalse (fun h => Value.noConfusion h)
  | .vArr _, .vBool _ => isFalse (fun h => Value.noConfusion h)
  | .vArr _, .vNum _ => isFalse (fun h => Value.noConfusion h)
  | .vArr _, .vStr _ => isFalse (fun h => Value.noConfusion h)
  | .vArr xs, .vArr ys =>
    match decEqValueList xs ys with
    | isTrue h => isTrue (by rw [h])
    | isFalse h => isFalse (fun he => h (Value.vArr.inj he))
  | .vArr _, .vObj _ => isFalse (fun h => Value.noConfusion h)
  | .vObj _, .vNull => isFalse (fun h => Value.noConfusion h)
  | .vObj _, .vBool _ => isFalse (fun h => Value.noConfusion h)
  | .vObj _, .vNum _ => isFalse (fun h => Value.noConfusion h)
  | .vObj _, .vStr _ => isFalse (fun h => Value.noConfusion h)
  | .vObj _, .vArr _ => isFalse (fun h => Value.noConfusion h)
  | .vObj fs, .vObj gs =>
    match decEqFieldList fs gs with
    | isTrue h => isTrue (by rw [h])
    | isFalse h => isFalse (fun he => h (Value.vObj.inj he))

/-- Decidable equality for lists of values. -/
def decEqValueList : (a b : List Value) → Decidable (a = b)
  | [], [] => isTrue rfl
  | [], _ :: _ => isFalse (fun h => List.noConfusion h)
  | _ :: _, [] => isFalse (fun h => List.noConfusion h)
  | x :: xs, y :: ys =>
    match decEqValue x y with
    | isFalse h => isFalse (fun he => h (List.cons.inj he).1)
    | isTrue h1 =>
      match decEqValueList xs ys with
      | isTrue h2 => isTrue (by rw [h1, h2])
      | isFalse h2 => isFalse (fun he => h2 (List.cons.inj he).2)

/-- Decidable equality for object field lists. -/
def decEqFieldList : (a b : List (String × Value)) → Decidable (a = b)
  | [], [] => isTrue rfl
  | [], _ :: _ => isFalse (fun h => List.noConfusion h)
  | _ :: _, [] => isFalse (fun h => List.noConfusion h)
  | (k1, v1) :: xs, (k2, v2) :: ys =>
    match decEq k1 k2 with
    | isFalse h => isFalse (fun he => h (congrArg Prod.fst (List.cons.inj he).1))
    | isTrue hk =>
      match decEqValue v1 v2 with
      | isFalse h => isFalse (fun he => h (congrArg Prod.snd (List.cons.inj he).1))
      | isTrue hv =>
        match decEqFieldList xs ys with
        | isTrue h2 => isTrue (by rw [hk, hv, h2])
        | isFalse h2 => isFalse (fun he => h2 (List.cons.inj he).2)

end

instance : DecidableEq Value := decEqValue

/-- GraphQL output types, as far as `mergeResults.ts` inspects them: named
types (scalar, enum, object, interface, union) and the `List`/`NonNull`
wrappers. -/
inductive GType where
  | scalarT (name : String)
  | enumT (name : String)
  | objectT (name : String)
  | interfaceT (name : String)
  | unionT (name : String)
  | listT (ofType : GType)
  | nonNullT (ofType : GType)

/-- graphql-js `getNamedType`: unwrap all `List`/`NonNull` wrappers down to
the underlying named type. -/
def getNamedType : GType → GType
  | .listT t => getNamedType t
  | .nonNullT t => getNamedType t
  | t => t

/-- graphql-js `isListType`: true only for a type whose outermost constructor
is `List`. -/
def isListType : GType → Bool
  | .listT _ => true
  | _ => false

/-- graphql-js `isObjectType`. -/
def isObjectType : GType → Bool
  | .objectT _ => true
  | _ => false

/-- graphql-js `isInterfaceType`. -/
def isInterfaceType : GType → Bool
  | .interfaceT _ => true
  | _ => false

/-- Options record of `mergeResults` (`deduplicateBy?: string`,
`preferLatest?: boolean`); `none` models an absent (undefined) property. -/
structure MergeOptions where
  deduplicateBy : Option String := none
  preferLatest : Option Bool := none

/-- Property lookup `fields[key]` on an object's field list: first matching
key, `none` when the key is missing (JS `undefined`). -/
def getField : List (String × Value) → String → Option Value
  | [], _ => none
  | (k', v) :: rest, k => if k' = k then some v else getField rest k

/-- Property assignment `fields[key] = v` on an object's field list: replaces
in place when the key exists (keeping its position, as JS does), appends
otherwise. -/
def setField : List (String × Value) → String → Value → List (String × Value)
  | [], k, v => [(k, v)]
  | (k', v') :: rest, k, v =>
    if k' = k then (k, v) :: rest else (k', v') :: setField rest k v

/-- JS loose `x == null`, applied to a property read: true for a missing
property (`undefined`) and for `null`. -/
def isNullishO : Option Value → Bool
  | none => true
  | some .vNull => true
  | some _ => false

/-- First loop of `mergeArrayResults`: spread arrays into `allItems`, push
non-null non-array payloads as single items, skip null payloads. -/
def flattenResults : List Value → List Value
  | [] => []
  | .vArr xs :: rest => xs ++ flattenResults rest
  | .vNull :: rest => flattenResults rest
  | v :: rest => v :: flattenResults rest

/-- Dedupe key of an item, mirroring the guards of the dedupe loop: items that
are not objects (`item == null || typeof item !== 'object'`, and arrays, which
have no such named property) and objects whose key property is missing or null
(`key == null`) have no dedupe key and are never deduplicated. -/
def keyOf (key : String) : Value → Option Value
  | .vObj fs =>
    match getField fs key with
    | none => none
    | some .vNull => none
    | some v => some v
  | _ => none

/-- JS `Map.get` on the `seen` map from dedupe-key values to indices. -/
def lookupSeen : List (Value × Nat) → Value → Option Nat
  | [], _ => none
  | (k', i) :: rest, k => if k' = k then some i else lookupSeen rest k

/-- Dedupe loop of `mergeArrayResults`: `dedup` is the `deduplicated` array
being built, `seen` the `Map` from key value to the index of that key's entry
in `deduplicated`.  On a repeated key the existing entry is overwritten in
place when `preferLatest` is truthy, otherwise the item is dropped. -/
def dedupeLoop (key : String) (pl : Bool) :
    List Value → List Value → List (Value × Nat) → List Value
  | [], dedup, _ => dedup
  | item :: rest, dedup, seen =>
    match keyOf key item with
    | none => dedupeLoop key pl rest (dedup ++ [item]) seen
    | some k =>
      match lookupSeen seen k with
      | some idx => dedupeLoop key pl rest (if pl then dedup.set idx item else dedup) seen
      | none => dedupeLoop key pl rest (dedup ++ [item]) (seen ++ [(k, dedup.length)])

/-- `mergeArrayResults`: concatenate all payloads, then deduplicate only when
`options.deduplicateBy` is truthy (an absent key, like the falsy empty
string, skips deduplication entirely).  `if (options.preferLatest)` reads the
optional flag truthily, so an absent `preferLatest` behaves as `false` here. -/
def mergeArrayResults (results : List Value) (opts : MergeOptions) : List Value :=
  let allItems := flattenResults results
  match opts.deduplicateBy with
  | none => allItems
  | some key =>
    if key = "" then allItems
    else dedupeLoop key (opts.preferLatest.getD false) allItems [] []

mutual

/-- Body of `deepMerge(target, source, preferLatest)` over the source's field
list (`for key in source`), threading the updated target accumulator. -/
def deepMergeFields (pl : Bool) (tgt : List (String × Value)) :
    List (String × Value) → List (String × Value)
  | [] => tgt
  | (k, sv) :: rest => deepMergeFields pl (mergeField pl tgt k sv) rest

/-- One iteration of the `deepMerge` loop for source property `k` holding
`sv`: skip null, concatenate arrays onto an array already in the target
(overwrite otherwise), recurse when both sides hold plain objects (overwrite
otherwise), and overwrite scalar leaves when `preferLatest` is true or the
target has no value there. -/
def mergeField (pl : Bool) (tgt : List (String × Value)) (k : String) :
    Value → List (String × Value)
  | .vNull => tgt
  | .vArr xs =>
    match getField tgt k with
    | some (.vArr ys) => setField tgt k (.vArr (ys ++ xs))
    | _ => setField tgt k (.vArr xs)
  | .vObj sfs =>
    match getField tgt k with
    | some (.vObj tfs) => setField tgt k (.vObj (deepMergeFields pl tfs sfs))
    | _ => setField tgt k (.vObj sfs)
  | sv => if pl || isNullishO (getField tgt k) then setField tgt k sv else tgt

end

/-- Payloads accepted by the `typeof result === 'object'` guard of
`mergeObjectResults`, as a field list: plain objects as themselves, arrays as
their index-keyed properties (a `for key in` loop over an array visits its
indices); null and primitives are skipped (`none`). -/
def toFields : Value → Option (List (String × Value))
  | .vObj fs => some fs
  | .vArr xs => some ((xs.enum).map (fun p => (toString p.1, p.2)))
  | _ => none

/-- `mergeObjectResults`: fold every object-typed payload into a fresh empty
accumulator with `deepMerge`, defaulting `preferLatest` to `true`
(`options.preferLatest ?? true`).  This pure version returns the value tree
the JS code returns for payloads without internal sharing; the heap embedding
below captures the aliasing/mutation behaviour. -/
def mergeObjectResults (results : List Value) (opts : MergeOptions) : Value :=
  .vObj (results.foldl
    (fun acc r =>
      match toFields r with
      | some fs => deepMergeFields (opts.preferLatest.getD true) acc fs
      | none => acc)
    [])

/-- `mergeResults(results, fieldType, options)`: null for a missing or empty
payload list, the sole payload unchanged for a singleton list, and otherwise
a type-directed dispatch.  Note the source computes
`isListType(getNamedType(fieldType))` — `getNamedType` strips every `List`
wrapper, so this test is reproduced verbatim here. -/
def mergeResults (results : Option (List Value)) (fieldType : GType)
    (opts : MergeOptions) : Value :=
  match results with
  | none => .vNull
  | some rs =>
    if rs.length = 0 then .vNull
    else if rs.length = 1 then rs.headD .vNull
    else
      let namedType := getNamedType fieldType
      if isListType (getNamedType fieldType) then .vArr (mergeArrayResults rs opts)
      else if isObjectType namedType || isInterfaceType namedType then
        mergeObjectResults rs opts
      else rs.headD .vNull

/-- Classification string used by `validateResultCompatibility`: a payload is
classified as `null` (interpolated into the error message as the string
"null"), `array`, or its `typeof` result. -/
def classifyStr : Value → String
  | .vNull => "null"
  | .vArr _ => "array"
  | .vObj _ => "object"
  | .vStr _ => "string"
  | .vNum _ => "number"
  | .vBool _ => "boolean"

/-- Comparison loop of `validateResultCompatibility` over `results[1..]`,
carrying the first payload and its classification; `i` is the 0-based index of
the payload under inspection. -/
def validateLoop (firstResult : Value) (firstType : String) :
    Nat → List Value → Except String Unit
  | _, [] => .ok ()
  | i, result :: rest =>
    let resultType := classifyStr result
    if result = .vNull ∧ firstResult = .vNull then
      validateLoop firstResult firstType (i + 1) rest
    else if resultType ≠ firstType then
      .error ("Incompatible result types from endpoints: expected " ++ firstType ++
        ", got " ++ resultType ++ " in result #" ++ toString (i + 1))
    else validateLoop firstResult firstType (i + 1) rest

/-- `validateResultCompatibility`: vacuously ok for at most one payload,
otherwise every later payload's classification is compared against the first
payload's (null payloads included). -/
def validateResultCompatibility (results : List Value) : Except String Unit :=
  if results.length ≤ 1 then .ok ()
  else
    match results with
    | [] => .ok ()
    | first :: rest => validateLoop first (classifyStr first) 1 rest


/-- Last occurrence (in payload order) of an item whose dedupe key is `k`:
the "most recent occurrence" of the specification. -/
def lastWithKey (key : String) (k : Value) : List Value → Option Value
  | [] => none
  | it :: rest =>
    match lastWithKey key k rest with
    | some v => some v
    | none => if keyOf key it = some k then some it else none

/-- Specification-side description of the dedupe pass, written from the
spec's words: walk the concatenated items in order; an item without a dedupe
key is always kept in place; at the first occurrence of a key the kept value
is the most recent occurrence's value when `preferLatest` is true and the
first occurrence's value otherwise; later occurrences of a seen key are
dropped (so the key keeps the position of its first occurrence). -/
def keepSpec (key : String) (pl : Bool) : List Value → List Value → List Value
  | _, [] => []
  | seenKs, item :: rest =>
    match keyOf key item with
    | none => item :: keepSpec key pl seenKs rest
    | some k =>
      if k ∈ seenKs then keepSpec key pl seenKs rest
      else (if pl then (lastWithKey key k rest).getD item else item) ::
        keepSpec key pl (k :: seenKs) rest

/-- Replacement a keyed entry of the accumulator will have received once the
remaining `items` are processed with `preferLatest`: the last later occurrence
of its key, if any. -/
def latestPick (key : String) (items : List Value) (it : Value) : Value :=
  match keyOf key it with
  | some k => (lastWithKey key k items).getD it
  | none => it

/-- Pending effect of the remaining `items` on the already-built accumulator:
with `preferLatest` every keyed entry is replaced by its key's last remaining
occurrence; without it the accumulator is final. -/
def applyLatest (key : String) (pl : Bool) (items dedup : List Value) : List Value :=
  if pl then dedup.map (latestPick key items) else dedup

/-- Contents of the `seen` map determined by an accumulator prefix: each keyed
entry contributes its key paired with its index (offset by `n`). -/
def seenMap (key : String) : Nat → List Value → List (Value × Nat)
  | _, [] => []
  | n, it :: rest =>
    match keyOf key it with
    | some k => (k, n) :: seenMap key (n + 1) rest
    | none => seenMap key (n + 1) rest

/-- Values hitting the scalar-leaf branch of `deepMerge` (neither null nor an
array nor a plain object). -/
def isScalarV : Value → Bool
  | .vStr _ => true
  | .vNum _ => true
  | .vBool _ => true
  | _ => false

/-- Heap values for the reference-semantics embedding of
`mergeObjectResults`/`deepMerge`: scalars are immutable, arrays are kept
inline (the source never mutates an array in place — it either aliases one or
builds a fresh one), and plain objects live in the heap behind an address. -/
inductive HVal where
  | hnull
  | hbool (b : Bool)
  | hnum (n : Int)
  | hstr (s : String)
  | harr (xs : List HVal)
  | href (a : Nat)

mutual

/-- Decidable equality for `HVal` (hand-rolled, as for `Value`). -/
def decEqHVal : (a b : HVal) → Decidable (a = b)
  | .hnull, .hnull => isTrue rfl
  | .hnull, .hbool _ => isFalse (fun h => HVal.noConfusion h)
  | .hnull, .hnum _ => isFalse (fun h => HVal.noConfusion h)
  | .hnull, .hstr _ => isFalse (fun h => HVal.noConfusion h)
  | .hnull, .harr _ => isFalse (fun h => HVal.noConfusion h)
  | .hnull, .href _ => isFalse (fun h => HVal.noConfusion h)
  | .hbool _, .hnull => isFalse (fun h => HVal.noConfusion h)
  | .hbool a, .hbool b =>
    match decEq a b with
    | isTrue h => isTrue (by rw [h])
    | isFalse h => isFalse (fun he => h (HVal.hbool.inj he))
  | .hbool _, .hnum _ => isFalse (fun h => HVal.noConfusion h)
  | .hbool _, .hstr _ => isFalse (fun h => HVal.noConfusion h)
  | .hbool _, .harr _ => isFalse (fun h => HVal.noConfusion h)
  | .hbool _, .href _ => isFalse (fun h => HVal.noConfusion h)
  | .hnum _, .hnull => isFalse (fun h => HVal.noConfusion h)
  | .hnum _, .hbool _ => isFalse (fun h => HVal.noConfusion h)
  | .hnum a, .hnum b =>
    match decEq a b with
    | isTrue h => isTrue (by rw [h])
    | isFalse h => isFalse (fun he => h (HVal.hnum.inj he))
  | .hnum _, .hstr _ => isFalse (fun h => HVal.noConfusion h)
  | .hnum _, .harr _ => isFalse (fun h => HVal.noConfusion h)
  | .hnum _, .href _ => isFalse (fun h => HVal.noConfusion h)
  | .hstr _, .hnull => isFalse (fun h => HVal.noConfusion h)
  | .hstr _, .hbool _ => isFalse (fun h => HVal.noConfusion h)
  | .hstr _, .hnum _ => isFalse (fun h => HVal.noConfusion h)
  | .hstr a, .hstr b =>
    match decEq a b with
    | isTrue h => isTrue (by rw [h])
    | isFalse h => isFalse (fun he => h (HVal.hstr.inj he))
  | .hstr _, .harr _ => isFalse (fun h => HVal.noConfusion h)
  | .hstr _, .href _ => isFalse (fun h => HVal.noConfusion h)
  | .harr _, .hnull => isFalse (fun h => HVal.noConfusion h)
  | .harr _, .hbool _ => isFalse (fun h => HVal.noConfusion h)
  | .harr _, .hnum _ => isFalse (fun h => HVal.noConfusion h)
  | .harr _, .hstr _ => isFalse (fun h => HVal.noConfusion h)
  | .harr xs, .harr ys =>
    match decEqHValList xs ys with
    | isTrue h => isTrue (by rw [h])
    | isFalse h => isFalse (fun he => h (HVal.harr.inj he))
  | .harr _, .href _ => isFalse (fun h => HVal.noConfusion h)
  | .href _, .hnull => isFalse (fun h => HVal.noConfusion h)
  | .href _, .hbool _ => isFalse (fun h => HVal.noConfusion h)
  | .href _, .hnum _ => isFalse (fun h => HVal.noConfusion h)
  | .href _, .hstr _ => isFalse (fun h => HVal.noConfusion h)
  | .href _, .harr _ => isFalse (fun h => HVal.noConfusion h)
  | .href a, .href b =>
    match decEq a b with
    | isTrue h => isTrue (by rw [h])
    | isFalse h => isFalse (fun he => h (HVal.href.inj he))

/-- Decidable equality for lists of heap values. -/
def decEqHValList : (a b : List HVal) → Decidable (a = b)
  | [], [] => isTrue rfl
  | [], _ :: _ => isFalse (fun h => List.noConfusion h)
  | _ :: _, [] => isFalse (fun h => List.noConfusion h)
  | x :: xs, y :: ys =>
    match decEqHVal x y with
    | isFalse h => isFalse (fun he => h (List.cons.inj he).1)
    | isTrue h1 =>
      match decEqHValList xs ys with
      | isTrue h2 => isTrue (by rw [h1, h2])
      | isFalse h2 => isFalse (fun he => h2 (List.cons.inj he).2)

end

instance : DecidableEq HVal := decEqHVal

/-- Heap for the reference-semantics embedding: addressed plain objects, each
a field list in insertion order. -/
abbrev Heap := List (List (String × HVal))

/-- Dereference an object address. -/
def readObj (h : Heap) (a : Nat) : Option (List (String × HVal)) := h.get? a

/-- Property read on a heap object's field list. -/
def getFieldH : List (String × HVal) → String → Option HVal
  | [], _ => none
  | (k', v) :: rest, k => if k' = k then some v else getFieldH rest k

/-- Property write on a heap object's field list (replace in place or
append), mirroring JS assignment. -/
def setFieldH : List (String × HVal) → String → HVal → List (String × HVal)
  | [], k, v => [(k, v)]
  | (k', v') :: rest, k, v =>
    if k' = k then (k, v) :: rest else (k', v') :: setFieldH rest k v

/-- In-place mutation `heapObject[k] = v` of the object at address `a`. -/
def writeField (h : Heap) (a : Nat) (k : String) (v : HVal) : Heap :=
  match h.get? a with
  | some o => h.set a (setFieldH o k v)
  | none => h

/-- Read `target[key]` through the heap. -/
def readFieldH (h : Heap) (a : Nat) (k : String) : Option HVal :=
  match readObj h a with
  | some o => getFieldH o k
  | none => none

/-- JS loose `x == null` on a heap property read. -/
def isNullishH : Option HVal → Bool
  | none => true
  | some .hnull => true
  | some _ => false

/-- Index-keyed properties of an array, as visited by a `for key in` loop. -/
def indexedFieldsH (xs : List HVal) : List (String × HVal) :=
  (xs.enum).map (fun p => (toString p.1, p.2))

/-- Work items of the heap-level merge interpreter: merge a source field list
into the object at `tA` (the body of `deepMerge`), or fold a payload list
into the accumulator object at `tA` (the body of `mergeObjectResults`). -/
inductive HTask where
  | fields (tA : Nat) (fs : List (String × HVal))
  | intoAll (tA : Nat) (results : List HVal)

/-- Heap-level interpreter for `mergeObjectResults`/`deepMerge`, faithful to
the source's reference semantics: `deepMerge` stores the incoming object or
array itself (`target[key] = sourceValue`, an alias) when the target slot
cannot be merged into, and recursively merges into the object already behind
`target[key]` — mutating it in place — when both sides are plain objects.
`fuel` bounds the recursion depth so the interpreter is total; every theorem
below supplies enough fuel for its input, so the `none` (out-of-fuel) case is
never what is being proved about. -/
def hRun : Nat → Bool → HTask → Heap → Option Heap
  | 0, _, _, _ => none
  | Nat.succ fuel, pl, HTask.intoAll tA rs, h =>
    match rs with
    | [] => some h
    | r :: rest =>
      match r with
      | .href a =>
        match readObj h a with
        | some o =>
          match hRun fuel pl (.fields tA o) h with
          | some h' => hRun fuel pl (.intoAll tA rest) h'
          | none => none
        | none => none
      | .harr xs =>
        match hRun fuel pl (.fields tA (indexedFieldsH xs)) h with
        | some h' => hRun fuel pl (.intoAll tA rest) h'
        | none => none
      | _ => hRun fuel pl (.intoAll tA rest) h
  | Nat.succ fuel, pl, HTask.fields tA fs, h =>
    match fs with
    | [] => some h
    | (k, sv) :: rest =>
      match sv with
      | .hnull => hRun fuel pl (.fields tA rest) h
      | .harr xs =>
        match readFieldH h tA k with
        | some (.harr ys) => hRun fuel pl (.fields tA rest) (writeField h tA k (.harr (ys ++ xs)))
        | _ => hRun fuel pl (.fields tA rest) (writeField h tA k (.harr xs))
      | .href sA =>
        match readFieldH h tA k with
        | some (.href tB) =>
          match readObj h sA with
          | some sObj =>
            match hRun fuel pl (.fields tB sObj) h with
            | some h' => hRun fuel pl (.fields tA rest) h'
            | none => none
          | none => none
        | _ => hRun fuel pl (.fields tA rest) (writeField h tA k (.href sA))
      | sv' =>
        if pl || isNullishH (readFieldH h tA k) then
          hRun fuel pl (.fields tA rest) (writeField h tA k sv')
        else hRun fuel pl (.fields tA rest) h

/-- Heap-level `mergeObjectResults`: allocate the fresh accumulator
`const merged = {}` at the next free address, fold every payload into it, and
return the final heap together with the accumulator's address. -/
def mergeObjectResultsH (fuel : Nat) (pl : Bool) (results : List HVal) (h : Heap) :
    Option (Heap × Nat) :=
  match hRun fuel pl (.intoAll h.length results) (h ++ [[]]) with
  | some h' => some (h', h.length)
  | none => none

/-- Initial heap of the mutation counterexample: payload 0 is
`{a: {x: 1}}` (addresses 0 and 1) and payload 1 is `{a: {y: 2}}`
(addresses 2 and 3). -/
def exHeap : Heap :=
  [[("a", .href 1)], [("x", .hnum 1)], [("a", .href 3)], [("y", .hnum 2)]]

/-- Named upstream endpoint, as configured per field
(`APIEndpointConfig` / `EndpointConfig` in the sources). -/
structure EndpointConfig where
  name : String
  endpoint : String

/-- Runtime `endpointName` argument: absent, one name, or a list of names. -/
inductive Selector where
  | absent
  | one (name : String)
  | many (names : List String)

/-- Error raised for a selector name absent from the configured endpoints,
carrying the offending name and the valid names. -/
structure UnknownTargetError where
  offending : String
  valid : List String

/-- Names carried by a selector. -/
def selectorNames : Selector → List String
  | .absent => []
  | .one n => [n]
  | .many ns => ns

/-- Modelled from the spec: the runtime resolver's endpoint-selection step for
a list of names (the multi-name path of `httpOperation.ts` is not under
`src/`; the spec's Target Registry contract and the single-name pseudocode of
`RESOLVER_IMPLEMENTATION_GUIDE.md` prescribe failing with an
`UnknownTargetError` naming the offending value and enumerating the valid
names, resolving atomically). -/
def resolveNames (cfg : List EndpointConfig) : List String → Except UnknownTargetError (List EndpointConfig)
  | [] => .ok []
  | n :: rest =>
    match cfg.find? (fun t => t.name == n) with
    | some t =>
      match resolveNames cfg rest with
      | .ok ts => .ok (t :: ts)
      | .error e => .error e
    | none => .error { offending := n, valid := cfg.map EndpointConfig.name }

/-- Modelled from the spec: `resolve(selector, configuredTargets)` — absent
selector falls back to the first configured endpoint, otherwise every name is
resolved in order. -/
def resolveTargets (sel : Selector) (cfg : List EndpointConfig) :
    Except UnknownTargetError (List EndpointConfig) :=
  match sel with
  | .absent => .ok (cfg.take 1)
  | .one n => resolveNames cfg [n]
  | .many ns => resolveNames cfg ns

/-- Modelled from the spec: resolution happens strictly before dispatch, so a
failed resolution issues zero calls.  The second component counts invocations
of the per-target call function. -/
def resolveAndDispatch {α : Type} (sel : Selector) (cfg : List EndpointConfig)
    (callFn : EndpointConfig → α) : Except UnknownTargetError (List α) × Nat :=
  match resolveTargets sel cfg with
  | .error e => (.error e, 0)
  | .ok ts => (.ok (ts.map callFn), ts.length)

lemma latestPick_nil (key : String) (it : Value) : latestPick key [] it = it := by
  cases h : keyOf key it <;> simp [latestPick, h, lastWithKey]

lemma applyLatest_nil (key : String) (pl : Bool) (dedup : List Value) :
    applyLatest key pl [] dedup = dedup := by
  cases pl with
  | false => rfl
  | true =>
    have hid : latestPick key [] = id := funext (latestPick_nil key)
    simp [applyLatest, hid]

lemma lastWithKey_cons_ne (key : String) (k : Value) (x : Value) (items : List Value)
    (h : keyOf key x ≠ some k) :
    lastWithKey key k (x :: items) = lastWithKey key k items := by
  cases hl : lastWithKey key k items <;> simp [lastWithKey, hl, h]

lemma lastWithKey_cons_eq (key : String) (k : Value) (x : Value) (items : List Value)
    (h : keyOf key x = some k) :
    lastWithKey key k (x :: items) = some ((lastWithKey key k items).getD x) := by
  cases hl : lastWithKey key k items <;> simp [lastWithKey, hl, h]

lemma applyLatest_cons_skip (key : String) (pl : Bool) (x : Value)
    (items dedup : List Value)
    (hx : ∀ m, keyOf key x = some m → m ∉ dedup.filterMap (keyOf key)) :
    applyLatest key pl (x :: items) dedup = applyLatest key pl items dedup := by
  cases pl with
  | false => rfl
  | true =>
    simp only [applyLatest, if_pos]
    refine List.map_congr_left (fun it hit => ?_)
    cases h : keyOf key it with
    | none => simp [latestPick, h]
    | some m =>
      have hmem : m ∈ dedup.filterMap (keyOf key) := List.mem_filterMap.mpr ⟨it, hit, h⟩
      have hne : keyOf key x ≠ some m := fun hc => hx m hc hmem
      simp [latestPick, h, lastWithKey_cons_ne key m x items hne]

lemma applyLatest_append (key : String) (pl : Bool) (items dedup : List Value) (x : Value) :
    applyLatest key pl items (dedup ++ [x]) =
      applyLatest key pl items dedup ++ [if pl then latestPick key items x else x] := by
  cases pl <;> simp [applyLatest]

lemma map_latestPick_set (key : String) (items : List Value) (x : Value) (k : Value) :
    ∀ (dedup : List Value) (idx : Nat) (y : Value),
      dedup.get? idx = some y →
      keyOf key y = some k → keyOf key x = some k →
      (dedup.filterMap (keyOf key)).Nodup →
      dedup.map (latestPick key (x :: items)) = (dedup.set idx x).map (latestPick key items)
  | [], idx, y, hget, _, _, _ => by simp at hget
  | z :: rest, 0, y, hget, hky, hkx, hnd => by
    have hzy : z = y := by simpa using hget
    subst hzy
    simp only [List.set_cons_zero, List.map_cons]
    congr 1
    · simp only [latestPick, hky, hkx]
      rw [lastWithKey_cons_eq key k x items hkx]
      simp
    · refine List.map_congr_left (fun w hw => ?_)
      cases hwk : keyOf key w with
      | none => simp [latestPick, hwk]
      | some m =>
        have hmem : m ∈ rest.filterMap (keyOf key) := List.mem_filterMap.mpr ⟨w, hw, hwk⟩
        have hknot : k ∉ rest.filterMap (keyOf key) := by
          have : (k :: rest.filterMap (keyOf key)).Nodup := by
            simpa [List.filterMap_cons, hky] using hnd
          exact (List.nodup_cons.mp this).1
        have hne : keyOf key x ≠ some m := by
          rw [hkx]
          intro hc
          cases Option.some.inj hc
          exact hknot hmem
        simp [latestPick, hwk, lastWithKey_cons_ne key m x items hne]
  | z :: rest, idx + 1, y, hget, hky, hkx, hnd => by
    have hget' : rest.get? idx = some y := by simpa using hget
    have hkrest : k ∈ rest.filterMap (keyOf key) :=
      List.mem_filterMap.mpr ⟨y, List.get?_mem hget', hky⟩
    simp only [List.set_cons_succ, List.map_cons]
    congr 1
    · cases hzk : keyOf key z with
      | none => simp [latestPick, hzk]
      | some m =>
        have hmnot : m ∉ rest.filterMap (keyOf key) := by
          have : (m :: rest.filterMap (keyOf key)).Nodup := by
            simpa [List.filterMap_cons, hzk] using hnd
          exact (List.nodup_cons.mp this).1
        have hne : keyOf key x ≠ some m := by
          rw [hkx]
          intro hc
          cases Option.some.inj hc
          exact hmnot hkrest
        simp [latestPick, hzk, lastWithKey_cons_ne key m x items hne]
    · have hndrest : (rest.filterMap (keyOf key)).Nodup := by
        cases hzk : keyOf key z with
        | none => simpa [List.filterMap_cons, hzk] using hnd
        | some m =>
          have : (m :: rest.filterMap (keyOf key)).Nodup := by
            simpa [List.filterMap_cons, hzk] using hnd
          exact (List.nodup_cons.mp this).2
      exact map_latestPick_set key items x k rest idx y hget' hky hkx hndrest

lemma seenMap_append (key : String) :
    ∀ (l : List Value) (n : Nat) (x : Value),
      seenMap key n (l ++ [x]) = seenMap key n l ++ seenMap key (n + l.length) [x]
  | [], n, x => by simp [seenMap]
  | it :: rest, n, x => by
    have harith : n + 1 + rest.length = n + (rest.length + 1) := by omega
    cases h : keyOf key it with
    | none =>
      simp only [List.cons_append, seenMap, h, List.length_cons, List.append_eq]
      rw [seenMap_append key rest (n + 1) x, harith]
      simp [seenMap]
    | some k =>
      simp only [List.cons_append, seenMap, h, List.length_cons, List.append_eq]
      rw [seenMap_append key rest (n + 1) x, harith]
      simp [seenMap]

lemma seenMap_set (key : String) :
    ∀ (l : List Value) (n i : Nat) (x y : Value),
      l.get? i = some y → keyOf key x = keyOf key y →
      seenMap key n (l.set i x) = seenMap key n l
  | [], _, i, _, _, hget, _ => by simp at hget
  | z :: rest, n, 0, x, y, hget, hk => by
    have hzy : z = y := by simpa using hget
    subst hzy
    simp only [List.set_cons_zero, seenMap, hk]
  | z :: rest, n, i + 1, x, y, hget, hk => by
    have hget' : rest.get? i = some y := by simpa using hget
    cases h : keyOf key z with
    | none =>
      simp only [List.set_cons_succ, seenMap, h,
        seenMap_set key rest (n + 1) i x y hget' hk]
    | some k =>
      simp only [List.set_cons_succ, seenMap, h,
        seenMap_set key rest (n + 1) i x y hget' hk]

lemma lookupSeen_seenMap_some (key : String) :
    ∀ (l : List Value) (n : Nat) (k : Value) (idx : Nat),
      lookupSeen (seenMap key n l) k = some idx →
      ∃ j y, l.get? j = some y ∧ keyOf key y = some k ∧ idx = n + j
  | [], n, k, idx, h => by simp [seenMap, lookupSeen] at h
  | it :: rest, n, k, idx, h => by
    cases hit : keyOf key it with
    | none =>
      rw [seenMap, hit] at h
      obtain ⟨j, y, hg, hy, hidx⟩ := lookupSeen_seenMap_some key rest (n + 1) k idx h
      exact ⟨j + 1, y, by simpa using hg, hy, by omega⟩
    | some m =>
      rw [seenMap, hit] at h
      rw [lookupSeen] at h
      by_cases hmk : m = k
      · subst hmk
        simp at h
        exact ⟨0, it, rfl, hit, by omega⟩
      · rw [if_neg hmk] at h
        obtain ⟨j, y, hg, hy, hidx⟩ := lookupSeen_seenMap_some key rest (n + 1) k idx h
        exact ⟨j + 1, y, by simpa using hg, hy, by omega⟩

lemma lookupSeen_seenMap_none (key : String) :
    ∀ (l : List Value) (n : Nat) (k : Value),
      lookupSeen (seenMap key n l) k = none ↔ k ∉ l.filterMap (keyOf key)
  | [], n, k => by simp [seenMap, lookupSeen]
  | it :: rest, n, k => by
    cases hit : keyOf key it with
    | none =>
      rw [seenMap, hit]
      simp only [List.filterMap_cons, hit]
      exact lookupSeen_seenMap_none key rest (n + 1) k
    | some m =>
      rw [seenMap, hit, lookupSeen]
      simp only [List.filterMap_cons, hit]
      by_cases hmk : m = k
      · subst hmk
        simp
      · rw [if_neg hmk, lookupSeen_seenMap_none key rest (n + 1) k]
        simp only [List.mem_cons, not_or]
        constructor
        · intro h2
          exact ⟨fun hc => hmk hc.symm, h2⟩
        · intro h2
          exact h2.2

lemma filterMap_keyOf_set (key : String) :
    ∀ (l : List Value) (i : Nat) (x y : Value),
      l.get? i = some y → keyOf key x = keyOf key y →
      (l.set i x).filterMap (keyOf key) = l.filterMap (keyOf key)
  | [], i, _, _, hget, _ => by simp at hget
  | z :: rest, 0, x, y, hget, hk => by
    have hzy : z = y := by simpa using hget
    subst hzy
    simp only [List.set_cons_zero, List.filterMap_cons, hk]
  | z :: rest, i + 1, x, y, hget, hk => by
    have hget' : rest.get? i = some y := by simpa using hget
    simp only [List.set_cons_succ, List.filterMap_cons,
      filterMap_keyOf_set key rest i x y hget' hk]

lemma keepSpec_congr (key : String) (pl : Bool) :
    ∀ (items : List Value) (s1 s2 : List Value),
      (∀ a, a ∈ s1 ↔ a ∈ s2) →
      keepSpec key pl s1 items = keepSpec key pl s2 items
  | [], _, _, _ => rfl
  | item :: rest, s1, s2, h => by
    cases hk : keyOf key item with
    | none => simp only [keepSpec, hk, keepSpec_congr key pl rest s1 s2 h]
    | some k =>
      simp only [keepSpec, hk]
      by_cases hmem : k ∈ s1
      · rw [if_pos hmem, if_pos ((h k).mp hmem)]
        exact keepSpec_congr key pl rest s1 s2 h
      · rw [if_neg hmem, if_neg (fun hc => hmem ((h k).mpr hc))]
        have h' : ∀ a, a ∈ k :: s1 ↔ a ∈ k :: s2 := by
          intro a
          simp [List.mem_cons, h a]
        rw [keepSpec_congr key pl rest (k :: s1) (k :: s2) h']

lemma dedupeLoop_eq_keepSpec (key : String) (pl : Bool) :
    ∀ (items dedup : List Value),
      (dedup.filterMap (keyOf key)).Nodup →
      dedupeLoop key pl items dedup (seenMap key 0 dedup) =
        applyLatest key pl items dedup ++
          keepSpec key pl (dedup.filterMap (keyOf key)) items
  | [], dedup, hnd => by
    simp [dedupeLoop, keepSpec, applyLatest_nil]
  | x :: rest, dedup, hnd => by
    cases hx : keyOf key x with
    | none =>
      have hseen : seenMap key 0 (dedup ++ [x]) = seenMap key 0 dedup := by
        rw [seenMap_append]
        simp [seenMap, hx]
      have hfm : (dedup ++ [x]).filterMap (keyOf key) = dedup.filterMap (keyOf key) := by
        simp [List.filterMap_append, hx]
      have hIH := dedupeLoop_eq_keepSpec key pl rest (dedup ++ [x]) (by rw [hfm]; exact hnd)
      rw [hseen, hfm] at hIH
      simp only [dedupeLoop, hx]
      rw [hIH, applyLatest_append]
      rw [applyLatest_cons_skip key pl x rest dedup
        (fun m hc => by rw [hx] at hc; cases hc)]
      simp only [keepSpec, hx]
      rw [List.append_assoc]
      congr 1
      cases pl <;> simp [latestPick, hx]
    | some k =>
      cases hlook : lookupSeen (seenMap key 0 dedup) k with
      | none =>
        have hknot : k ∉ dedup.filterMap (keyOf key) :=
          (lookupSeen_seenMap_none key dedup 0 k).mp hlook
        have hseen : seenMap key 0 (dedup ++ [x]) =
            seenMap key 0 dedup ++ [(k, dedup.length)] := by
          rw [seenMap_append]
          simp [seenMap, hx]
        have hfm : (dedup ++ [x]).filterMap (keyOf key) =
            dedup.filterMap (keyOf key) ++ [k] := by
          simp [List.filterMap_append, hx]
        have hnd' : ((dedup ++ [x]).filterMap (keyOf key)).Nodup := by
          rw [hfm, List.nodup_append]
          refine ⟨hnd, List.nodup_singleton k, ?_⟩
          intro a ha hb
          rw [List.mem_singleton] at hb
          subst hb
          exact hknot ha
        have hIH := dedupeLoop_eq_keepSpec key pl rest (dedup ++ [x]) hnd'
        rw [hseen, hfm] at hIH
        simp only [dedupeLoop, hx, hlook]
        rw [hIH, applyLatest_append]
        rw [applyLatest_cons_skip key pl x rest dedup
          (fun m hc => by rw [hx] at hc; cases Option.some.inj hc; exact hknot)]
        rw [keepSpec_congr key pl rest (dedup.filterMap (keyOf key) ++ [k])
          (k :: dedup.filterMap (keyOf key))
          (by intro a; rw [List.mem_append, List.mem_singleton, List.mem_cons]; tauto)]
        simp only [keepSpec, hx, if_neg hknot]
        rw [List.append_assoc]
        congr 1
        cases pl <;> simp [latestPick, hx]
      | some idx =>
        obtain ⟨j, y, hget, hky, hidx⟩ := lookupSeen_seenMap_some key dedup 0 k idx hlook
        have hidx' : idx = j := by omega
        subst hidx'
        have hkmem : k ∈ dedup.filterMap (keyOf key) :=
          List.mem_filterMap.mpr ⟨y, List.get?_mem hget, hky⟩
        simp only [dedupeLoop, hx, hlook]
        cases pl with
        | false =>
          have hIH := dedupeLoop_eq_keepSpec key false rest dedup hnd
          rw [if_neg (by exact Bool.false_ne_true)]
          rw [hIH]
          simp only [keepSpec, hx, if_pos hkmem]
          rfl
        | true =>
          have hkk : keyOf key x = keyOf key y := by rw [hx, hky]
          have hseen_set : seenMap key 0 (dedup.set idx x) = seenMap key 0 dedup :=
            seenMap_set key dedup 0 idx x y hget hkk
          have hfm_set : (dedup.set idx x).filterMap (keyOf key) =
              dedup.filterMap (keyOf key) :=
            filterMap_keyOf_set key dedup idx x y hget hkk
          have hnd' : ((dedup.set idx x).filterMap (keyOf key)).Nodup := by
            rw [hfm_set]; exact hnd
          have hIH := dedupeLoop_eq_keepSpec key true rest (dedup.set idx x) hnd'
          rw [hseen_set, hfm_set] at hIH
          rw [if_pos rfl]
          rw [hIH]
          simp only [keepSpec, hx, if_pos hkmem]
          congr 1
          show applyLatest key true rest (dedup.set idx x) = applyLatest key true (x :: rest) dedup
          simp only [applyLatest, if_pos rfl]
          exact (map_latestPick_set key rest x k dedup idx y hget hky hx hnd).symm

/-- C1: in collection merge with a dedupe key configured, the merged sequence
is exactly the claim's description `keepSpec`: elements without a (non-null)
dedupe-key value are kept in place; elements sharing a dedupe-key value keep
the position of the key's first occurrence, and the value stored there is the
most recent (input-order-latest) occurrence's value when `preferLatest` is
true, the first occurrence's value when it is false. -/
theorem mergeArrayResults_keepsFirstPosition (results : List Value) (key : String)
    (pl : Bool) (hkey : key ≠ "") :
    mergeArrayResults results { deduplicateBy := some key, preferLatest := some pl } =
      keepSpec key pl [] (flattenResults results) := by
  have h := dedupeLoop_eq_keepSpec key pl (flattenResults results) [] (by simp)
  simp only [seenMap] at h
  simp only [mergeArrayResults, if_neg hkey, Option.getD_some]
  rw [h, applyLatest]
  cases pl <;> simp

/-- Witness: the specification's `preferLatest` example, via
`mergeArrayResults_keepsFirstPosition`. -/
theorem mergeArrayResults_keepsFirstPosition_witness :
    mergeArrayResults [.vArr [.vObj [("id", .vStr "1"), ("name", .vStr "A")]],
        .vArr [.vObj [("id", .vStr "1"), ("name", .vStr "A2")]]]
      { deduplicateBy := some "id", preferLatest := some true } =
      [.vObj [("id", .vStr "1"), ("name", .vStr "A2")]] ∧
    mergeArrayResults [.vArr [.vObj [("id", .vStr "1"), ("name", .vStr "A")]],
        .vArr [.vObj [("id", .vStr "1"), ("name", .vStr "A2")]]]
      { deduplicateBy := some "id", preferLatest := some false } =
      [.vObj [("id", .vStr "1"), ("name", .vStr "A")]] :=
  ⟨(mergeArrayResults_keepsFirstPosition _ "id" true (by decide)).trans (by decide),
   (mergeArrayResults_keepsFirstPosition _ "id" false (by decide)).trans (by decide)⟩

lemma isListType_getNamedType (t : GType) : isListType (getNamedType t) = false := by
  induction t <;> simp_all [getNamedType, isListType]

lemma flattenResults_allNull :
    ∀ (results : List Value), (∀ r ∈ results, r = Value.vNull) →
      flattenResults results = []
  | [], _ => rfl
  | r :: rest, h => by
    have hr : r = Value.vNull := h r (List.mem_cons_self r rest)
    subst hr
    exact flattenResults_allNull rest (fun x hx => h x (List.mem_cons_of_mem _ hx))

lemma mergeObjectResults_allNull (opts : MergeOptions) :
    ∀ (results : List Value), (∀ r ∈ results, r = Value.vNull) →
      mergeObjectResults results opts = .vObj [] := by
  have haux : ∀ (results : List Value) (acc : List (String × Value)),
      (∀ r ∈ results, r = Value.vNull) →
      results.foldl
        (fun acc r =>
          match toFields r with
          | some fs => deepMergeFields (opts.preferLatest.getD true) acc fs
          | none => acc) acc = acc := by
    intro results
    induction results with
    | nil => intro acc _; rfl
    | cons r rest ih =>
      intro acc h
      have hr : r = Value.vNull := h r (List.mem_cons_self r rest)
      subst hr
      exact ih acc (fun x hx => h x (List.mem_cons_of_mem _ hx))
  intro results h
  unfold mergeObjectResults
  rw [haux results [] h]

lemma validateLoop_okIff (first : Value) :
    ∀ (rest : List Value) (i : Nat),
      validateLoop first (classifyStr first) i rest = .ok () ↔
        ∀ r ∈ rest, classifyStr r = classifyStr first
  | [], i => by simp [validateLoop]
  | r :: rest, i => by
    by_cases hnn : r = Value.vNull ∧ first = Value.vNull
    · rw [validateLoop, if_pos hnn]
      obtain ⟨hr, hf⟩ := hnn
      subst hr
      rw [validateLoop_okIff first rest (i + 1)]
      constructor
      · intro h x hx
        rcases List.mem_cons.mp hx with h1 | h2
        · rw [h1, hf]
        · exact h x h2
      · intro h x hx
        exact h x (List.mem_cons_of_mem _ hx)
    · rw [validateLoop, if_neg hnn]
      by_cases hty : classifyStr r ≠ classifyStr first
      · rw [if_pos hty]
        constructor
        · intro h
          exact Except.noConfusion h
        · intro h
          exact absurd (h r (List.mem_cons_self r rest)) hty
      · rw [if_neg hty]
        have hty' : classifyStr r = classifyStr first := not_not.mp hty
        rw [validateLoop_okIff first rest (i + 1)]
        constructor
        · intro h x hx
          rcases List.mem_cons.mp hx with h1 | h2
          · rw [h1, hty']
          · exact h x h2
        · intro h x hx
          exact h x (List.mem_cons_of_mem _ hx)

lemma resolveNames_error (cfg : List EndpointConfig) :
    ∀ (ns : List String), (∃ n ∈ ns, n ∉ cfg.map EndpointConfig.name) →
      ∃ e : UnknownTargetError, resolveNames cfg ns = .error e ∧
        e.offending ∈ ns ∧ e.offending ∉ cfg.map EndpointConfig.name ∧
        e.valid = cfg.map EndpointConfig.name
  | [], h => by simp at h
  | n :: rest, h => by
    cases hf : cfg.find? (fun t => t.name == n) with
    | none =>
      refine ⟨⟨n, cfg.map EndpointConfig.name⟩, ?_, List.mem_cons_self n rest, ?_, rfl⟩
      · rw [resolveNames, hf]
      · intro hmem
        obtain ⟨t, ht, htn⟩ := List.mem_map.mp hmem
        have := List.find?_eq_none.mp hf t ht
        simp [htn] at this
    | some t =>
      have htn : t.name = n := by
        have := List.find?_some hf
        simpa using this
      have htmem : t ∈ cfg := List.mem_of_find?_eq_some hf
      have hnmem : n ∈ cfg.map EndpointConfig.name :=
        List.mem_map.mpr ⟨t, htmem, htn⟩
      obtain ⟨m, hm, hmnot⟩ := h
      have hmrest : m ∈ rest := by
        rcases List.mem_cons.mp hm with h1 | h2
        · exact absurd (h1 ▸ hnmem) hmnot
        · exact h2
      obtain ⟨e, herr, hoff, hnot, hvalid⟩ := resolveNames_error cfg rest ⟨m, hmrest, hmnot⟩
      refine ⟨e, ?_, List.mem_cons_of_mem _ hoff, hnot, hvalid⟩
      rw [resolveNames, hf, herr]

/-- C2: composite merge per-field rules of `deepMerge`, together with the
specification's deep-merge example.  A null incoming value is skipped; an
incoming sequence concatenates onto a sequence already in the accumulator
without deduplication; an incoming record merges recursively into a record
already there; a scalar leaf overwrites when `preferLatest` is true or the
accumulator holds no value at that field. -/
theorem mergeObjectResults_deepMergeRules :
    (mergeObjectResults
        [.vObj [("profile", .vObj [("name", .vStr "Alice"), ("bio", .vStr "Engineer")])],
         .vObj [("profile", .vObj [("name", .vStr "Alice"), ("status", .vStr "online")]),
                ("stats", .vObj [("followers", .vNum 1000)])]] {} =
      .vObj [("profile", .vObj [("name", .vStr "Alice"), ("bio", .vStr "Engineer"),
                                ("status", .vStr "online")]),
             ("stats", .vObj [("followers", .vNum 1000)])]) ∧
    (∀ (pl : Bool) (tgt : List (String × Value)) (k : String),
      mergeField pl tgt k .vNull = tgt) ∧
    (∀ (pl : Bool) (tgt : List (String × Value)) (k : String) (xs ys : List Value),
      getField tgt k = some (.vArr ys) →
      mergeField pl tgt k (.vArr xs) = setField tgt k (.vArr (ys ++ xs))) ∧
    (∀ (pl : Bool) (tgt : List (String × Value)) (k : String)
        (sfs tfs : List (String × Value)),
      getField tgt k = some (.vObj tfs) →
      mergeField pl tgt k (.vObj sfs) = setField tgt k (.vObj (deepMergeFields pl tfs sfs))) ∧
    (∀ (pl : Bool) (tgt : List (String × Value)) (k : String) (sv : Value),
      isScalarV sv = true →
      (pl = true ∨ isNullishO (getField tgt k) = true) →
      mergeField pl tgt k sv = setField tgt k sv) := by
  refine ⟨by decide, fun pl tgt k => rfl, ?_, ?_, ?_⟩
  · intro pl tgt k xs ys h
    simp [mergeField, h]
  · intro pl tgt k sfs tfs h
    simp [mergeField, h]
  · intro pl tgt k sv hs hc
    have hcond : (pl || isNullishO (getField tgt k)) = true := by
      rcases hc with h | h
      · simp [h]
      · simp [h]
    cases sv <;> simp [isScalarV] at hs <;> simp [mergeField, hcond]

/-- Witness: the sequence-concatenation rule and the scalar-overwrite rule of
`mergeObjectResults_deepMergeRules` at concrete inputs. -/
theorem mergeObjectResults_deepMergeRules_witness :
    mergeField true [("tags", .vArr [.vStr "a"])] "tags" (.vArr [.vStr "b"]) =
      [("tags", .vArr [.vStr "a", .vStr "b"])] ∧
    mergeField true [("n", .vNum 1)] "n" (.vNum 2) = [("n", .vNum 2)] := by
  constructor
  · have h := mergeObjectResults_deepMergeRules.2.2.1 true
      [("tags", .vArr [.vStr "a"])] "tags" [.vStr "b"] [.vStr "a"] (by decide)
    rw [h]
    decide
  · have h := mergeObjectResults_deepMergeRules.2.2.2.2 true
      [("n", .vNum 1)] "n" (.vNum 2) (by decide) (Or.inl rfl)
    rw [h]
    decide

/-- C3 counterexample: under a scalar declared shape, a leading absent (null)
payload is returned as-is — the merge does not skip to the first non-absent
payload. -/
theorem mergeResults_scalar_leadingNull_cex :
    mergeResults (some [.vNull, .vStr "2024-12-16"]) (.scalarT "String") {} = .vNull ∧
    Value.vNull ≠ .vStr "2024-12-16" :=
  ⟨by decide, by decide⟩

/-- C3 amended: for any payload list under a declared shape whose named type
is not an object or interface (scalars and enums, and any wrappers around
them), the merge returns the first payload verbatim — absent or not — and
ignores all remaining payloads. -/
theorem mergeResults_scalar_firstPayload (p : Value) (rest : List Value) (ft : GType)
    (opts : MergeOptions)
    (hobj : isObjectType (getNamedType ft) = false)
    (hintf : isInterfaceType (getNamedType ft) = false) :
    mergeResults (some (p :: rest)) ft opts = p := by
  simp only [mergeResults]
  rw [if_neg (by simp)]
  by_cases h1 : (p :: rest).length = 1
  · rw [if_pos h1]
    rfl
  · rw [if_neg h1, isListType_getNamedType, hobj, hintf]
    simp

/-- Witness: `mergeResults_scalar_firstPayload` at the counterexample input
and at the specification's scalar example. -/
theorem mergeResults_scalar_firstPayload_witness :
    mergeResults (some [.vNull, .vStr "x"]) (.scalarT "String") {} = .vNull ∧
    mergeResults (some [.vStr "2024-12-16", .vStr "2024-12-17"]) (.scalarT "Date") {} =
      .vStr "2024-12-16" :=
  ⟨mergeResults_scalar_firstPayload .vNull [.vStr "x"] (.scalarT "String") {} rfl rfl,
   mergeResults_scalar_firstPayload (.vStr "2024-12-16") [.vStr "2024-12-17"]
     (.scalarT "Date") {} rfl rfl⟩

/-- C4 counterexample: `validate([null, someCollection])` does not succeed —
it fails, and the expected classification in the error is taken from payload
0 (here the absent payload, reported as `null`). -/
theorem validateResultCompatibility_nullFirst_cex :
    validateResultCompatibility [.vNull, .vArr [.vStr "a"]] =
      .error "Incompatible result types from endpoints: expected null, got array in result #2" ∧
    validateResultCompatibility [.vNull, .vArr [.vStr "a"]] ≠ .ok () := by
  refine ⟨rfl, ?_⟩
  intro h
  rw [show validateResultCompatibility [.vNull, .vArr [.vStr "a"]] =
    Except.error "Incompatible result types from endpoints: expected null, got array in result #2"
    from rfl] at h
  exact Except.noConfusion h

/-- C4 amended: the validator accepts exactly the payload lists in which every
payload shares the classification of payload 0, where absent (null) is its own
classification, incompatible with the others and not skipped; lists of length
at most one are always accepted, and the expected classification reported on
mismatch is payload 0's. -/
theorem validateResultCompatibility_okIff (results : List Value) :
    validateResultCompatibility results = .ok () ↔
      (results.length ≤ 1 ∨
        ∀ r ∈ results, classifyStr r = classifyStr (results.headD .vNull)) := by
  unfold validateResultCompatibility
  by_cases hlen : results.length ≤ 1
  · simp [hlen]
  · rw [if_neg hlen]
    cases results with
    | nil => simp at hlen
    | cons first rest =>
      rw [validateLoop_okIff first rest 1]
      simp only [List.headD_cons]
      constructor
      · intro h
        right
        intro r hr
        rcases List.mem_cons.mp hr with h1 | h2
        · rw [h1]
        · exact h r h2
      · intro h
        rcases h with h | h
        · exact absurd h hlen
        · intro r hr
          exact h r (List.mem_cons_of_mem _ hr)

/-- Witness: `validateResultCompatibility_okIff` applied at two concrete
inputs — two collections are accepted, and a null before a collection is
rejected. -/
theorem validateResultCompatibility_okIff_witness :
    validateResultCompatibility [.vArr [], .vArr [.vNum 1]] = .ok () ∧
    validateResultCompatibility [.vNull, .vArr [.vNum 1]] ≠ .ok () := by
  constructor
  · exact (validateResultCompatibility_okIff [.vArr [], .vArr [.vNum 1]]).mpr
      (Or.inr (by decide))
  · intro h
    have := (validateResultCompatibility_okIff [.vNull, .vArr [.vNum 1]]).mp h
    rcases this with h1 | h2
    · simp at h1
    · have := h2 (.vArr [.vNum 1]) (by simp)
      simp [classifyStr] at this

/-- C5: with no dedupe key configured (the default options object), the
collection merge performs no deduplication at all — it returns the plain
concatenation, so two objects sharing the same non-null `id` both remain.
This contradicts the repository's own documentation, which states the merger
deduplicates by the `id` field by default. -/
theorem mergeArrayResults_noDedupeByDefault :
    (∀ results : List Value, mergeArrayResults results {} = flattenResults results) ∧
    mergeArrayResults
      [.vArr [.vObj [("id", .vStr "1"), ("name", .vStr "A")]],
       .vArr [.vObj [("id", .vStr "1"), ("name", .vStr "A2")]]] {} =
      [.vObj [("id", .vStr "1"), ("name", .vStr "A")],
       .vObj [("id", .vStr "1"), ("name", .vStr "A2")]] :=
  ⟨fun _ => rfl, by decide⟩

/-- C6 counterexample: composite merge mutates an input payload.  Merging the
payloads at addresses 0 (`{a:{x:1}}`) and 2 (`{a:{y:2}}`) succeeds, and
afterwards payload 0's nested record at address 1 — `{x:1}` before the merge
— has become `{x:1, y:2}`: the merge wrote through the alias it stored in the
accumulator, so the input payload was not left unchanged. -/
theorem mergeObjectResultsH_mutation_cex :
    (mergeObjectResultsH 9 true [.href 0, .href 2] exHeap).map (fun p => readObj p.1 1) =
      some (some [("x", .hnum 1), ("y", .hnum 2)]) ∧
    readObj exHeap 1 = some [("x", .hnum 1)] ∧
    (some [("x", HVal.hnum 1), ("y", HVal.hnum 2)] : Option (List (String × HVal))) ≠
      some [("x", HVal.hnum 1)] := by
  refine ⟨by decide, by decide, by decide⟩

/-- C6 amended: composite merge builds a fresh top-level accumulator (a new
object at address 4) but stores aliases of the payloads' nested records in it
(`("a", href 1)`), and deep-merging a later payload through such an alias
mutates the earlier payload's nested record in place: address 1 ends as
`{x:1, y:2}`.  The full post-merge heap is computed here. -/
theorem mergeObjectResultsH_aliasesAndMutates :
    mergeObjectResultsH 9 true [.href 0, .href 2] exHeap =
      some ([[("a", .href 1)], [("x", .hnum 1), ("y", .hnum 2)], [("a", .href 3)],
             [("y", .hnum 2)], [("a", .href 1)]], 4) := by
  decide

/-- C7: merging a single-payload list returns exactly that payload, for every
declared shape and options — the length-one early return of `mergeResults`. -/
theorem mergeResults_singleton_identity (p : Value) (ft : GType) (opts : MergeOptions) :
    mergeResults (some [p]) ft opts = p := by
  simp [mergeResults]

/-- C8 counterexample: a fully-absent merge does not return null for every
declared shape — under a composite (object) shape it returns an empty
object. -/
theorem mergeResults_allAbsent_cex :
    mergeResults (some [.vNull, .vNull]) (.objectT "User") {} = .vObj [] ∧
    Value.vObj [] ≠ .vNull :=
  ⟨by decide, by decide⟩

/-- C8 amended: for a payload list of length at least 2 whose payloads are all
absent, `mergeResults` returns an empty object whenever the declared shape's
named type is an object or interface (which, because the list check never
fires, includes list-of-object shapes), and null otherwise (scalars, enums);
`mergeArrayResults` itself returns an empty sequence on such input. -/
theorem mergeResults_allAbsent (results : List Value) (ft : GType) (opts : MergeOptions)
    (h2 : 2 ≤ results.length) (hall : ∀ r ∈ results, r = .vNull) :
    mergeResults (some results) ft opts =
      (if isObjectType (getNamedType ft) || isInterfaceType (getNamedType ft)
        then .vObj [] else .vNull) ∧
    mergeArrayResults results opts = [] := by
  constructor
  · simp only [mergeResults]
    rw [if_neg (by omega), if_neg (by omega), isListType_getNamedType]
    simp only [Bool.false_eq_true, if_false]
    by_cases hoi : (isObjectType (getNamedType ft) || isInterfaceType (getNamedType ft)) = true
    · rw [if_pos hoi, if_pos hoi]
      exact mergeObjectResults_allNull opts results hall
    · rw [if_neg hoi, if_neg hoi]
      cases results with
      | nil => simp at h2
      | cons r rest =>
        simp only [List.headD_cons]
        exact hall r (List.mem_cons_self r rest)
  · unfold mergeArrayResults
    rw [flattenResults_allNull results hall]
    cases hd : opts.deduplicateBy with
    | none => rfl
    | some key =>
      by_cases hk : key = ""
      · simp [hk]
      · simp [hk, dedupeLoop]

/-- Witness: `mergeResults_allAbsent` at two all-null payloads under a
list-of-object declared shape, yielding an empty object (not null, and not an
empty array either). -/
theorem mergeResults_allAbsent_witness :
    mergeResults (some [.vNull, .vNull]) (.listT (.objectT "User")) {} = .vObj [] := by
  have h := mergeResults_allAbsent [.vNull, .vNull] (.listT (.objectT "User")) {}
    (by decide) (by decide)
  rw [h.1]
  rfl

/-- C9: any selector carrying a name absent from the configured endpoints
resolves to an `UnknownTargetError` naming an offending selector name and
enumerating the valid names, and zero calls to the per-target call function
are issued — no partial target list is used. -/
theorem resolveAndDispatch_unknownTarget {α : Type} (sel : Selector)
    (cfg : List EndpointConfig) (callFn : EndpointConfig → α)
    (h : ∃ n ∈ selectorNames sel, n ∉ cfg.map EndpointConfig.name) :
    ∃ e : UnknownTargetError,
      resolveAndDispatch sel cfg callFn = (.error e, 0) ∧
      e.offending ∈ selectorNames sel ∧
      e.offending ∉ cfg.map EndpointConfig.name ∧
      e.valid = cfg.map EndpointConfig.name := by
  cases sel with
  | absent =>
    simp [selectorNames] at h
  | one n =>
    obtain ⟨e, herr, hoff, hnot, hvalid⟩ := resolveNames_error cfg [n] h
    exact ⟨e, by simp [resolveAndDispatch, resolveTargets, herr], hoff, hnot, hvalid⟩
  | many ns =>
    obtain ⟨e, herr, hoff, hnot, hvalid⟩ := resolveNames_error cfg ns h
    exact ⟨e, by simp [resolveAndDispatch, resolveTargets, herr], hoff, hnot, hvalid⟩

/-- Witness: the specification's example — selector `["primary", "ghost"]`
against configured endpoints `primary, replica` issues zero calls. -/
theorem resolveAndDispatch_unknownTarget_witness :
    (resolveAndDispatch (Selector.many ["primary", "ghost"])
      [⟨"primary", "https://alpha.example"⟩, ⟨"replica", "https://beta.example"⟩]
      (fun t => t.endpoint)).2 = 0 := by
  obtain ⟨e, he, _⟩ := resolveAndDispatch_unknownTarget
    (Selector.many ["primary", "ghost"])
    [⟨"primary", "https://alpha.example"⟩, ⟨"replica", "https://beta.example"⟩]
    (fun t => t.endpoint)
    ⟨"ghost", by decide, by decide⟩
  rw [he]

/-- C10: an absent (undefined) payload list and an empty payload list both
merge to null, for every declared shape and options. -/
theorem mergeResults_emptyOrMissing_null (ft : GType) (opts : MergeOptions) :
    mergeResults none ft opts = .vNull ∧ mergeResults (some []) ft opts = .vNull :=
  ⟨rfl, rfl⟩

end GMesh
